import Mathlib

/-!
Verification of the Black-Scholes pricing engine of
`src/options_calculator.py` (class `BlackScholesCalculator`).

The two operations, `black_scholes_price` and `calculate_greeks`, are
embedded as real-valued functions.  The source calls the external library
functions `norm.cdf` (standard normal CDF) and `norm.pdf` (standard normal
density); these are modelled as explicit function parameters `Phi` and
`phi`, with the properties a claim needs (symmetry of the CDF,
non-negativity of the density) taken as hypotheses.  Floating-point
arithmetic is modelled by exact real arithmetic, `np.log` by `Real.log`,
`np.sqrt` by `Real.sqrt`, `np.exp` by `Real.exp`.
-/

namespace OptionsCalculator

/-- The record returned by `calculate_greeks`: all five fields are always
present, mirroring the dict literal in the source. -/
structure Greeks where
  delta : ℝ
  gamma : ℝ
  theta : ℝ
  vega : ℝ
  rho : ℝ

/-- Auxiliary quantity `d1` as computed in the source (lines 59 and 75):
`d1 = (np.log(S / K) + (r + 0.5 * sigma**2) * T) / (sigma * np.sqrt(T))`. -/
noncomputable def d1 (S K T r sigma : ℝ) : ℝ :=
  (Real.log (S / K) + (r + 0.5 * sigma ^ 2) * T) / (sigma * Real.sqrt T)

/-- Auxiliary quantity `d2` as computed in the source (lines 60 and 76):
`d2 = d1 - sigma * np.sqrt(T)`. -/
noncomputable def d2 (S K T r sigma : ℝ) : ℝ :=
  d1 S K T r sigma - sigma * Real.sqrt T

/-- Embedding of `BlackScholesCalculator.black_scholes_price`
(source lines 54-67).  The degenerate guard is `T <= 0 or sigma <= 0`;
the side dispatch tests `option_type == 'call'`, every other string taking
the put branch; the result is clamped with `max(0, price)`. -/
noncomputable def black_scholes_price (Phi : ℝ → ℝ)
    (S K T r sigma : ℝ) (option_type : String) : ℝ :=
  if T ≤ 0 ∨ sigma ≤ 0 then 0
  else
    let price :=
      if option_type = "call" then
        S * Phi (d1 S K T r sigma) - K * Real.exp (-r * T) * Phi (d2 S K T r sigma)
      else
        K * Real.exp (-r * T) * Phi (-(d2 S K T r sigma)) - S * Phi (-(d1 S K T r sigma))
    max 0 price

/-- Embedding of `BlackScholesCalculator.calculate_greeks`
(source lines 70-110).  The degenerate guard is `T <= 0` only; the five
fields are returned with theta divided by 365, vega and rho divided
by 100, exactly as in the returned dict. -/
noncomputable def calculate_greeks (Phi phi : ℝ → ℝ)
    (S K T r sigma : ℝ) (option_type : String) : Greeks :=
  if T ≤ 0 then ⟨0, 0, 0, 0, 0⟩
  else
    let d1v := d1 S K T r sigma
    let d2v := d2 S K T r sigma
    let delta := if option_type = "call" then Phi d1v else Phi d1v - 1
    let gamma := phi d1v / (S * sigma * Real.sqrt T)
    let theta :=
      if option_type = "call" then
        -(S * phi d1v * sigma) / (2 * Real.sqrt T) - r * K * Real.exp (-r * T) * Phi d2v
      else
        -(S * phi d1v * sigma) / (2 * Real.sqrt T) + r * K * Real.exp (-r * T) * Phi (-d2v)
    let vega := S * phi d1v * Real.sqrt T
    let rho :=
      if option_type = "call" then
        K * T * Real.exp (-r * T) * Phi d2v
      else
        -K * T * Real.exp (-r * T) * Phi (-d2v)
    ⟨delta, gamma, theta / 365, vega / 100, rho / 100⟩

/-- The auxiliary quantity `d1` as written in the spec, section 4.2:
`d1 = (ln(S/K) + (r + 0.5*sigma^2)*T) / (sigma*sqrt(T))`. -/
noncomputable def d1_spec (S K T r sigma : ℝ) : ℝ :=
  (Real.log (S / K) + (r + 0.5 * sigma ^ 2) * T) / (sigma * Real.sqrt T)

/-- The auxiliary quantity `d2` as written in the spec, section 4.2:
`d2 = d1 - sigma*sqrt(T)`. -/
noncomputable def d2_spec (S K T r sigma : ℝ) : ℝ :=
  d1_spec S K T r sigma - sigma * Real.sqrt T

/-- The pricing formula as written in the spec, section 4.2: for a call
`price = S*Phi(d1) - K*e^(-rT)*Phi(d2)`, for a put
`price = K*e^(-rT)*Phi(-d2) - S*Phi(-d1)`, the result clamped to be
non-negative. -/
noncomputable def price_spec (Phi : ℝ → ℝ)
    (S K T r sigma : ℝ) (option_type : String) : ℝ :=
  if option_type = "call" then
    max 0 (S * Phi (d1_spec S K T r sigma) -
      K * Real.exp (-(r * T)) * Phi (d2_spec S K T r sigma))
  else
    max 0 (K * Real.exp (-(r * T)) * Phi (-(d2_spec S K T r sigma)) -
      S * Phi (-(d1_spec S K T r sigma)))

/-- The greeks as written in the spec, section 4.3: delta, gamma, theta,
vega, rho per-side formulas, with theta divided by 365, and vega and rho
divided by 100. -/
noncomputable def greeks_spec (Phi phi : ℝ → ℝ)
    (S K T r sigma : ℝ) (option_type : String) : Greeks :=
  let d1v := d1_spec S K T r sigma
  let d2v := d2_spec S K T r sigma
  { delta := if option_type = "call" then Phi d1v else Phi d1v - 1
    gamma := phi d1v / (S * sigma * Real.sqrt T)
    theta :=
      (if option_type = "call" then
        -(S * phi d1v * sigma) / (2 * Real.sqrt T) -
          r * K * Real.exp (-(r * T)) * Phi d2v
      else
        -(S * phi d1v * sigma) / (2 * Real.sqrt T) +
          r * K * Real.exp (-(r * T)) * Phi (-d2v)) / 365
    vega := S * phi d1v * Real.sqrt T / 100
    rho :=
      (if option_type = "call" then
        K * T * Real.exp (-(r * T)) * Phi d2v
      else
        -(K * T * Real.exp (-(r * T)) * Phi (-d2v))) / 100 }

/-- C1: for every parameter tuple the price operation returns a
non-negative value: the degenerate branch returns 0 and the general
branch is clamped with `max 0`. -/
theorem price_nonneg (Phi : ℝ → ℝ) (S K T r sigma : ℝ) (option_type : String) :
    0 ≤ black_scholes_price Phi S K T r sigma option_type := by
  unfold black_scholes_price
  split
  · exact le_refl 0
  · exact le_max_left 0 _

/-- C3: if `time_to_expiry = 0` or `volatility = 0` the price operation
returns exactly 0 via the degenerate branch, for either side and any
remaining parameters. -/
theorem price_degenerate_zero (Phi : ℝ → ℝ) (S K T r sigma : ℝ)
    (option_type : String) (h : T = 0 ∨ sigma = 0) :
    black_scholes_price Phi S K T r sigma option_type = 0 := by
  unfold black_scholes_price
  rcases h with h | h
  · rw [if_pos (Or.inl (le_of_eq h))]
  · rw [if_pos (Or.inr (le_of_eq h))]

/-- C3 witness: at `S = 100`, `K = 105`, `T = 1`, `r = 0`, `sigma = 0`,
side call, the price is 0. -/
theorem price_degenerate_zero_witness :
    black_scholes_price (fun _ => 0) 100 105 1 0 0 "call" = 0 :=
  price_degenerate_zero (fun _ => 0) 100 105 1 0 0 "call" (Or.inr rfl)

/-- C4: whenever `time_to_expiry <= 0` the greeks operation returns the
record with all five fields equal to 0; the record type itself guarantees
no field is missing. -/
theorem greeks_degenerate_zero (Phi phi : ℝ → ℝ) (S K r sigma : ℝ)
    (option_type : String) (T : ℝ) (hT : T ≤ 0) :
    calculate_greeks Phi phi S K T r sigma option_type = ⟨0, 0, 0, 0, 0⟩ := by
  unfold calculate_greeks
  rw [if_pos hT]

/-- C4 witness: at `T = 0` with `S = 100`, `K = 105`, `r = 0.05`,
`sigma = 0.2`, side put, all five greeks are 0. -/
theorem greeks_degenerate_zero_witness :
    calculate_greeks (fun _ => 0) (fun _ => 0) 100 105 0 0.05 0.2 "put" =
      ⟨0, 0, 0, 0, 0⟩ :=
  greeks_degenerate_zero (fun _ => 0) (fun _ => 0) 100 105 0.05 0.2 "put" 0
    (le_refl 0)

/-- C5: for positive spot, strike, time and volatility, the price
operation returns exactly the spec's formula
`max(0, S*Phi(d1) - K*e^(-rT)*Phi(d2))` for a call and
`max(0, K*e^(-rT)*Phi(-d2) - S*Phi(-d1))` for a put, with
`d1 = (ln(S/K) + (r + 0.5*sigma^2)*T)/(sigma*sqrt(T))` and
`d2 = d1 - sigma*sqrt(T)`. -/
theorem price_matches_spec (Phi : ℝ → ℝ) (S K T r sigma : ℝ)
    (hS : 0 < S) (hK : 0 < K) (hT : 0 < T) (hsig : 0 < sigma) :
    black_scholes_price Phi S K T r sigma "call" =
      price_spec Phi S K T r sigma "call" ∧
    black_scholes_price Phi S K T r sigma "put" =
      price_spec Phi S K T r sigma "put" := by
  have hcond : ¬(T ≤ 0 ∨ sigma ≤ 0) :=
    not_or.mpr ⟨not_le.mpr hT, not_le.mpr hsig⟩
  have hput : ¬(("put" : String) = "call") := by decide
  constructor
  · simp only [black_scholes_price, price_spec, d1, d2, d1_spec, d2_spec,
      if_neg hcond, if_pos rfl, if_true, eq_self_iff_true, neg_mul]
  · simp only [black_scholes_price, price_spec, d1, d2, d1_spec, d2_spec,
      if_neg hcond, if_neg hput, neg_mul]

/-- C5 witness: instantiation at `S = K = T = sigma = 1`, `r = 0` with the
CDF modelled as the constant 1/2 function. -/
theorem price_matches_spec_witness :
    black_scholes_price (fun _ => (1/2 : ℝ)) 1 1 1 0 1 "call" =
      price_spec (fun _ => (1/2 : ℝ)) 1 1 1 0 1 "call" ∧
    black_scholes_price (fun _ => (1/2 : ℝ)) 1 1 1 0 1 "put" =
      price_spec (fun _ => (1/2 : ℝ)) 1 1 1 0 1 "put" :=
  price_matches_spec (fun _ => (1/2 : ℝ)) 1 1 1 0 1
    (by norm_num) (by norm_num) (by norm_num) (by norm_num)

/-- C6: for positive spot, strike, time and volatility, the greeks
operation returns exactly the spec's formulas for delta, gamma, theta
(divided by 365), vega (divided by 100) and rho (divided by 100), for a
call and for a put. -/
theorem greeks_match_spec (Phi phi : ℝ → ℝ) (S K T r sigma : ℝ)
    (hS : 0 < S) (hK : 0 < K) (hT : 0 < T) (hsig : 0 < sigma) :
    calculate_greeks Phi phi S K T r sigma "call" =
      greeks_spec Phi phi S K T r sigma "call" ∧
    calculate_greeks Phi phi S K T r sigma "put" =
      greeks_spec Phi phi S K T r sigma "put" := by
  have hTle : ¬(T ≤ 0) := not_le.mpr hT
  have hput : ¬(("put" : String) = "call") := by decide
  constructor
  · simp only [calculate_greeks, greeks_spec, d1, d2, d1_spec, d2_spec,
      if_neg hTle, if_pos rfl, if_true, eq_self_iff_true, neg_mul]
  · simp only [calculate_greeks, greeks_spec, d1, d2, d1_spec, d2_spec,
      if_neg hTle, if_neg hput, neg_mul]

/-- C6 witness: instantiation at `S = K = T = sigma = 1`, `r = 0` with the
CDF modelled as the constant 1/2 function and the density as the constant
0 function. -/
theorem greeks_match_spec_witness :
    calculate_greeks (fun _ => (1/2 : ℝ)) (fun _ => (0 : ℝ)) 1 1 1 0 1 "call" =
      greeks_spec (fun _ => (1/2 : ℝ)) (fun _ => (0 : ℝ)) 1 1 1 0 1 "call" ∧
    calculate_greeks (fun _ => (1/2 : ℝ)) (fun _ => (0 : ℝ)) 1 1 1 0 1 "put" =
      greeks_spec (fun _ => (1/2 : ℝ)) (fun _ => (0 : ℝ)) 1 1 1 0 1 "put" :=
  greeks_match_spec (fun _ => (1/2 : ℝ)) (fun _ => (0 : ℝ)) 1 1 1 0 1
    (by norm_num) (by norm_num) (by norm_num) (by norm_num)

/-- C7: put-call parity.  With the CDF symmetry `Phi(-x) = 1 - Phi(x)`
(a property of the standard normal CDF the source obtains from
`scipy.stats.norm`), and given that the clamping in `max(0, price)` is
inactive on both sides (which holds for the true normal CDF, whose
Black-Scholes values are non-negative), the call price minus the put
price equals `S - K*e^(-rT)` exactly. -/
theorem put_call_parity (Phi : ℝ → ℝ) (S K T r sigma : ℝ)
    (hS : 0 < S) (hK : 0 < K) (hT : 0 < T) (hsig : 0 < sigma)
    (hPhi : ∀ x, Phi (-x) = 1 - Phi x)
    (hc : 0 ≤ S * Phi (d1 S K T r sigma) -
      K * Real.exp (-r * T) * Phi (d2 S K T r sigma))
    (hp : 0 ≤ K * Real.exp (-r * T) * Phi (-(d2 S K T r sigma)) -
      S * Phi (-(d1 S K T r sigma))) :
    black_scholes_price Phi S K T r sigma "call" -
      black_scholes_price Phi S K T r sigma "put" =
    S - K * Real.exp (-r * T) := by
  have hcond : ¬(T ≤ 0 ∨ sigma ≤ 0) :=
    not_or.mpr ⟨not_le.mpr hT, not_le.mpr hsig⟩
  have hput : ¬(("put" : String) = "call") := by decide
  simp only [black_scholes_price, if_neg hcond, if_pos rfl, if_true,
    eq_self_iff_true, if_neg hput]
  rw [max_eq_right hc, max_eq_right hp, hPhi (d1 S K T r sigma),
    hPhi (d2 S K T r sigma)]
  ring

/-- C7 witness: at `S = K = T = sigma = 1`, `r = 0` and the CDF modelled
as the constant 1/2 (which is symmetric and makes both unclamped values
exactly 0), the parity identity holds. -/
theorem put_call_parity_witness :
    black_scholes_price (fun _ => (1/2 : ℝ)) 1 1 1 0 1 "call" -
      black_scholes_price (fun _ => (1/2 : ℝ)) 1 1 1 0 1 "put" =
    1 - 1 * Real.exp (-0 * 1) :=
  put_call_parity (fun _ => (1/2 : ℝ)) 1 1 1 0 1
    (by norm_num) (by norm_num) (by norm_num) (by norm_num)
    (fun x => by norm_num)
    (by simp) (by simp)

/-- C8: for positive spot, strike, time and volatility, and a pointwise
non-negative density, the gamma and vega returned by the greeks operation
are non-negative for any side, and the call and put results have
identical gamma and identical vega. -/
theorem gamma_vega_props (Phi phi : ℝ → ℝ) (S K T r sigma : ℝ)
    (hS : 0 < S) (hK : 0 < K) (hT : 0 < T) (hsig : 0 < sigma)
    (hphi : ∀ x, 0 ≤ phi x) (side : String) :
    0 ≤ (calculate_greeks Phi phi S K T r sigma side).gamma ∧
    0 ≤ (calculate_greeks Phi phi S K T r sigma side).vega ∧
    (calculate_greeks Phi phi S K T r sigma "call").gamma =
      (calculate_greeks Phi phi S K T r sigma "put").gamma ∧
    (calculate_greeks Phi phi S K T r sigma "call").vega =
      (calculate_greeks Phi phi S K T r sigma "put").vega := by
  have hTle : ¬(T ≤ 0) := not_le.mpr hT
  refine ⟨?_, ?_, ?_, ?_⟩
  · simp only [calculate_greeks, if_neg hTle]
    exact div_nonneg (hphi _)
      (by positivity)
  · simp only [calculate_greeks, if_neg hTle]
    exact div_nonneg
      (mul_nonneg (mul_nonneg hS.le (hphi _)) (Real.sqrt_nonneg T))
      (by norm_num)
  · simp only [calculate_greeks, if_neg hTle]
  · simp only [calculate_greeks, if_neg hTle]

/-- C8 witness: instantiation at `S = K = T = sigma = 1`, `r = 0`, side
call, with the density modelled as the constant 0 function. -/
theorem gamma_vega_props_witness :
    0 ≤ (calculate_greeks (fun _ => (1/2 : ℝ)) (fun _ => (0 : ℝ))
      1 1 1 0 1 "call").gamma ∧
    0 ≤ (calculate_greeks (fun _ => (1/2 : ℝ)) (fun _ => (0 : ℝ))
      1 1 1 0 1 "call").vega ∧
    (calculate_greeks (fun _ => (1/2 : ℝ)) (fun _ => (0 : ℝ))
      1 1 1 0 1 "call").gamma =
      (calculate_greeks (fun _ => (1/2 : ℝ)) (fun _ => (0 : ℝ))
        1 1 1 0 1 "put").gamma ∧
    (calculate_greeks (fun _ => (1/2 : ℝ)) (fun _ => (0 : ℝ))
      1 1 1 0 1 "call").vega =
      (calculate_greeks (fun _ => (1/2 : ℝ)) (fun _ => (0 : ℝ))
        1 1 1 0 1 "put").vega :=
  gamma_vega_props (fun _ => (1/2 : ℝ)) (fun _ => (0 : ℝ)) 1 1 1 0 1
    (by norm_num) (by norm_num) (by norm_num) (by norm_num)
    (fun x => le_refl 0) "call"

/-- C9: the degenerate guards are asymmetric.  At `sigma = 0` with
`T > 0`, the price operation short-circuits and returns 0, but the greeks
guard `T <= 0` is false, so the greeks operation evaluates the general
branch: its delta is `Phi` applied to `d1` computed at `sigma = 0`, whose
denominator `sigma * sqrt(T)` equals 0 — the division in `d1` is
unguarded on that path. -/
theorem degenerate_guards_asymmetric (Phi phi : ℝ → ℝ) (S K T r : ℝ)
    (hT : 0 < T) (side : String) :
    black_scholes_price Phi S K T r 0 side = 0 ∧
    ¬(T ≤ 0) ∧
    (calculate_greeks Phi phi S K T r 0 "call").delta = Phi (d1 S K T r 0) ∧
    (0 : ℝ) * Real.sqrt T = 0 := by
  have hTle : ¬(T ≤ 0) := not_le.mpr hT
  refine ⟨?_, hTle, ?_, zero_mul _⟩
  · unfold black_scholes_price
    rw [if_pos (Or.inr (le_refl 0))]
  · simp only [calculate_greeks, if_neg hTle, if_pos rfl, if_true,
      eq_self_iff_true]

/-- C9 witness: instantiation at `S = K = T = 1`, `r = 0`, side put. -/
theorem degenerate_guards_asymmetric_witness :
    black_scholes_price (fun _ => (1/2 : ℝ)) 1 1 1 0 0 "put" = 0 ∧
    ¬((1 : ℝ) ≤ 0) ∧
    (calculate_greeks (fun _ => (1/2 : ℝ)) (fun _ => (0 : ℝ))
      1 1 1 0 0 "call").delta = (fun _ => (1/2 : ℝ)) (d1 1 1 1 0 0) ∧
    (0 : ℝ) * Real.sqrt 1 = 0 :=
  degenerate_guards_asymmetric (fun _ => (1/2 : ℝ)) (fun _ => (0 : ℝ))
    1 1 1 0 (by norm_num) "put"

/-- C10: any option_type other than the exact string "call" takes the put
branch of both operations: the result equals the put result on the same
parameters. -/
theorem unrecognized_side_is_put (Phi phi : ℝ → ℝ) (S K T r sigma : ℝ)
    (side : String) (hside : side ≠ "call") :
    black_scholes_price Phi S K T r sigma side =
      black_scholes_price Phi S K T r sigma "put" ∧
    calculate_greeks Phi phi S K T r sigma side =
      calculate_greeks Phi phi S K T r sigma "put" := by
  have hput : ¬(("put" : String) = "call") := by decide
  constructor
  · unfold black_scholes_price
    by_cases hdeg : T ≤ 0 ∨ sigma ≤ 0
    · rw [if_pos hdeg, if_pos hdeg]
    · rw [if_neg hdeg, if_neg hdeg]
      simp only [if_neg hside, if_neg hput]
  · unfold calculate_greeks
    by_cases hdeg : T ≤ 0
    · rw [if_pos hdeg, if_pos hdeg]
    · rw [if_neg hdeg, if_neg hdeg]
      simp only [if_neg hside, if_neg hput]

/-- C10 witness: the side string "Put" (capitalized, hence not equal to
"call") yields the put result at `S = 100`, `K = 105`, `T = 0.25`,
`r = 0.05`, `sigma = 0.2`. -/
theorem unrecognized_side_is_put_witness :
    black_scholes_price (fun _ => (1/2 : ℝ)) 100 105 0.25 0.05 0.2 "Put" =
      black_scholes_price (fun _ => (1/2 : ℝ)) 100 105 0.25 0.05 0.2 "put" ∧
    calculate_greeks (fun _ => (1/2 : ℝ)) (fun _ => (0 : ℝ))
        100 105 0.25 0.05 0.2 "Put" =
      calculate_greeks (fun _ => (1/2 : ℝ)) (fun _ => (0 : ℝ))
        100 105 0.25 0.05 0.2 "put" :=
  unrecognized_side_is_put (fun _ => (1/2 : ℝ)) (fun _ => (0 : ℝ))
    100 105 0.25 0.05 0.2 "Put" (by decide)

/-- C2 (code bug evidence): the source performs no spot/strike
validation.  At `spot = 0`, `K = 105`, `T = 1/4`, `r = 1/20`,
`sigma = 1/5`, side call, the price operation evaluates the general
formula and returns the numeric value
`max(0, -(105 * e^(-1/80) * Phi(3/40)))` instead of failing with
`InvalidParameter` as the spec requires. -/
theorem no_spot_validation (Phi : ℝ → ℝ) :
    black_scholes_price Phi 0 105 (1/4) (1/20) (1/5) "call" =
      max 0 (-(105 * Real.exp (-(1/80)) * Phi (3/40))) := by
  have hsq : Real.sqrt (1/4 : ℝ) = 1/2 := by
    rw [show (1/4 : ℝ) = (1/2) ^ 2 by norm_num]
    exact Real.sqrt_sq (by norm_num)
  have hd1 : d1 0 105 (1/4) (1/20) (1/5) = 7/40 := by
    unfold d1
    rw [hsq]
    norm_num [Real.log_zero]
  have hd2 : d2 0 105 (1/4) (1/20) (1/5) = 3/40 := by
    unfold d2
    rw [hd1, hsq]
    norm_num
  have hcond : ¬((1/4 : ℝ) ≤ 0 ∨ (1/5 : ℝ) ≤ 0) := by norm_num
  simp only [black_scholes_price, if_neg hcond, if_pos rfl, if_true,
    eq_self_iff_true, hd1, hd2]
  norm_num

end OptionsCalculator
